import Mathlib

/-!
Verification of the console timeline reporter (`ConsoleTimelinePlugin._printTimeline`)
and the phased-command hook registry (`PhasedCommandHooks`) of the rushstack
phased build orchestrator.

The TypeScript source is shallowly embedded: JavaScript numbers that can only
hold finite values in the modelled code paths are embedded as `ℚ`; the places
where the code can actually produce `Infinity`/`-Infinity`/`NaN`
(the `allStart`/`allEnd` sentinels and the chart-index divisions) are embedded
with the four-point type `JSNum`, whose arithmetic follows IEEE/ECMAScript
rules for those operations.  `String.prototype.repeat` (which throws a
`RangeError` on a negative or infinite count, and coerces `NaN` to `0`) is
embedded as `jsRepeatCount : JSNum → Option ℕ`, `none` meaning the thrown
`RangeError`.  Signed zero is collapsed to `0` (the reporter only ever prints
`toFixed` images, where `-0` and `0` agree).
-/

set_option maxHeartbeats 1000000

namespace RushTimeline

/-- `OperationStatus` enum (OperationStatus.ts). -/
inductive OperationStatus where
  | Ready
  | Executing
  | Success
  | SuccessWithWarning
  | Failure
  | Blocked
  | Skipped
  | FromCache
  | NoOp
deriving DecidableEq, Repr

/-- `TIMELINE_CHART_SYMBOLS`: the chart glyph for each operation status. -/
def TIMELINE_CHART_SYMBOLS : OperationStatus → String
  | .Ready => "?"
  | .Executing => "?"
  | .Success => "#"
  | .SuccessWithWarning => "!"
  | .Failure => "!"
  | .Blocked => "."
  | .Skipped => "%"
  | .FromCache => "%"
  | .NoOp => "%"

/-- The colors used by `TIMELINE_CHART_COLORIZER` (the `colors` library functions
are identified by the color they apply). -/
inductive ChartColor where
  | yellow
  | green
  | red
  | gray
deriving DecidableEq, Repr

/-- `TIMELINE_CHART_COLORIZER`: the color applied to the glyphs of each status. -/
def TIMELINE_CHART_COLORIZER : OperationStatus → ChartColor
  | .Ready => .yellow
  | .Executing => .yellow
  | .Success => .green
  | .SuccessWithWarning => .yellow
  | .Failure => .red
  | .Blocked => .red
  | .Skipped => .green
  | .FromCache => .green
  | .NoOp => .gray

/-- A JavaScript number as it occurs in `_printTimeline`: a finite value,
one of the two infinities (the `allStart`/`allEnd` sentinels), or `NaN`. -/
inductive JSNum where
  | fin (q : ℚ)
  | posInf
  | negInf
  | nan
deriving DecidableEq, Repr

/-- JavaScript addition on `JSNum`. -/
def jsAdd : JSNum → JSNum → JSNum
  | .fin a, .fin b => .fin (a + b)
  | .fin _, .posInf => .posInf
  | .fin _, .negInf => .negInf
  | .posInf, .fin _ => .posInf
  | .negInf, .fin _ => .negInf
  | .posInf, .posInf => .posInf
  | .negInf, .negInf => .negInf
  | .posInf, .negInf => .nan
  | .negInf, .posInf => .nan
  | .nan, _ => .nan
  | _, .nan => .nan

/-- JavaScript subtraction on `JSNum`. -/
def jsSub : JSNum → JSNum → JSNum
  | .fin a, .fin b => .fin (a - b)
  | .fin _, .posInf => .negInf
  | .fin _, .negInf => .posInf
  | .posInf, .fin _ => .posInf
  | .negInf, .fin _ => .negInf
  | .posInf, .posInf => .nan
  | .negInf, .negInf => .nan
  | .posInf, .negInf => .posInf
  | .negInf, .posInf => .negInf
  | .nan, _ => .nan
  | _, .nan => .nan

/-- JavaScript multiplication on `JSNum` (`0 * ±∞ = NaN`). -/
def jsMul : JSNum → JSNum → JSNum
  | .fin a, .fin b => .fin (a * b)
  | .fin a, .posInf => if a = 0 then .nan else if 0 < a then .posInf else .negInf
  | .fin a, .negInf => if a = 0 then .nan else if 0 < a then .negInf else .posInf
  | .posInf, .fin b => if b = 0 then .nan else if 0 < b then .posInf else .negInf
  | .negInf, .fin b => if b = 0 then .nan else if 0 < b then .negInf else .posInf
  | .posInf, .posInf => .posInf
  | .posInf, .negInf => .negInf
  | .negInf, .posInf => .negInf
  | .negInf, .negInf => .posInf
  | .nan, _ => .nan
  | _, .nan => .nan

/-- JavaScript division on `JSNum` (`0/0 = NaN`, `x/0 = ±∞` for `x ≠ 0`,
`x/±∞ = 0` for finite `x`, `±∞/±∞ = NaN`; signed zero collapsed to `0`). -/
def jsDiv : JSNum → JSNum → JSNum
  | .fin a, .fin b =>
      if b = 0 then (if a = 0 then .nan else if 0 < a then .posInf else .negInf)
      else .fin (a / b)
  | .fin _, .posInf => .fin 0
  | .fin _, .negInf => .fin 0
  | .posInf, .fin b => if 0 ≤ b then .posInf else .negInf
  | .negInf, .fin b => if 0 ≤ b then .negInf else .posInf
  | .posInf, .posInf => .nan
  | .posInf, .negInf => .nan
  | .negInf, .posInf => .nan
  | .negInf, .negInf => .nan
  | .nan, _ => .nan
  | _, .nan => .nan

/-- `Math.floor` on `JSNum` (identity on infinities and `NaN`). -/
def jsFloor : JSNum → JSNum
  | .fin q => .fin (⌊q⌋ : ℚ)
  | .posInf => .posInf
  | .negInf => .negInf
  | .nan => .nan

/-- JavaScript `<` comparison (`false` whenever an operand is `NaN`). -/
def jsLt : JSNum → JSNum → Bool
  | .nan, _ => false
  | _, .nan => false
  | .fin a, .fin b => decide (a < b)
  | .fin _, .posInf => true
  | .fin _, .negInf => false
  | .posInf, .fin _ => false
  | .negInf, .fin _ => true
  | .posInf, .posInf => false
  | .negInf, .negInf => false
  | .negInf, .posInf => true
  | .posInf, .negInf => false

/-- Whether a `JSNum` is a finite value. -/
def JSNum.isFinite : JSNum → Bool
  | .fin _ => true
  | _ => false

/-- ECMAScript `truncate` (round toward zero) on a rational. -/
def jsTrunc (q : ℚ) : ℤ := if q < 0 then -⌊-q⌋ else ⌊q⌋

/-- The count semantics of `String.prototype.repeat`: `ToIntegerOrInfinity`
maps `NaN` to `0` and truncates toward zero; a negative or `+∞` count throws a
`RangeError` (`none`); otherwise the string is repeated `some n` times. -/
def jsRepeatCount : JSNum → Option ℕ
  | .fin q => if jsTrunc q < 0 then none else some (jsTrunc q).toNat
  | .nan => some 0
  | .posInf => none
  | .negInf => none

/-- `ITimelineRecord` (one chart row's data, as pushed into `data`). -/
structure ITimelineRecord where
  startTime : ℚ
  endTime : ℚ
  durationString : String
  name : String
  status : OperationStatus
deriving DecidableEq, Repr

/-- The data `_printTimeline` reads from one entry of `result.operationResults`:
`operation.name` (possibly undefined), the truthiness of `operation.runner?.silent`,
the stopwatch's `startTime`/`endTime` (`number | undefined`), the result status
and the identity of `operation.associatedPhase` (phases identified by `ℕ`,
`none` when there is no associated phase). -/
structure OperationInfo where
  name : Option String
  silent : Bool
  startTime : Option ℚ
  endTime : Option ℚ
  status : OperationStatus
  phase : Option ℕ
deriving DecidableEq, Repr

/-- JavaScript truthiness of a `number | undefined` value
(`undefined` and `0` are falsy). -/
def truthy : Option ℚ → Bool
  | none => false
  | some q => decide (q ≠ 0)

/-- Modelled from the spec: the `Stopwatch` class is not under `src/`.
Per the spec, an operation's `duration` is its measured `endTime − startTime`;
the reporter treats the timestamps as milliseconds and durations as seconds
(`allDurationSeconds` divides `allEnd - allStart` by 1000 before being compared
with `workDuration`), so `stopwatch.duration = (endTime − startTime) / 1000`. -/
def opDurationOf (startTime endTime : ℚ) : ℚ := (endTime - startTime) / 1000

/-- `Number.prototype.toFixed(1)` on an exact rational: the nearest multiple of
1/10, ties toward the larger candidate, printed with one decimal digit. -/
def toFixed1 (q : ℚ) : String :=
  (if round (q * 10) < 0 then "-" else "") ++
  toString ((round (q * 10)).natAbs / 10) ++ "." ++ toString ((round (q * 10)).natAbs % 10)

/-- The `durationString` of an operation. -/
def durationStringOf (startTime endTime : ℚ) : String :=
  toFixed1 (opDurationOf startTime endTime)

/-- The `ITimelineRecord` pushed for an (eligible) operation. -/
def toRecord (o : OperationInfo) : ITimelineRecord :=
  { startTime := o.startTime.getD 0
    endTime := o.endTime.getD 0
    durationString := durationStringOf (o.startTime.getD 0) (o.endTime.getD 0)
    name := o.name.getD ""
    status := o.status }

/-- The gather loop keeps an operation iff its runner is not silent and
`startTime && endTime` is truthy. -/
def eligible (o : OperationInfo) : Bool :=
  !o.silent && (truthy o.startTime && truthy o.endTime)

/-- `Map.prototype.get` on an insertion-ordered association list. -/
def getAssoc : List (ℕ × ℚ) → ℕ → Option ℚ
  | [], _ => none
  | (k, v) :: rest, p => if k = p then some v else getAssoc rest p

/-- `Map.prototype.set` on an insertion-ordered association list:
overwrite in place if present, append otherwise. -/
def setAssoc : List (ℕ × ℚ) → ℕ → ℚ → List (ℕ × ℚ)
  | [], p, v => [(p, v)]
  | (k, w) :: rest, p, v =>
      if k = p then (k, v) :: rest else (k, w) :: setAssoc rest p v

/-- The `startTime` read for an operation (defaulting the `undefined` case). -/
def startD (o : OperationInfo) : ℚ := o.startTime.getD 0

/-- The `endTime` read for an operation (defaulting the `undefined` case). -/
def endD (o : OperationInfo) : ℚ := o.endTime.getD 0

/-- `operation.name?.length || 0`. -/
def nameLenD (o : OperationInfo) : ℕ := (o.name.map String.length).getD 0

/-- The `stopwatch.duration` of an operation. -/
def opDur (o : OperationInfo) : ℚ := opDurationOf (startD o) (endD o)

/-- The length of the operation's `durationString`. -/
def durLenD (o : OperationInfo) : ℕ := (durationStringOf (startD o) (endD o)).length

/-- `if (startTime < allStart) { allStart = startTime; }`. -/
def jsMinStep (a : JSNum) (q : ℚ) : JSNum := if jsLt (.fin q) a then .fin q else a

/-- `if (endTime > allEnd) { allEnd = endTime; }`. -/
def jsMaxStep (a : JSNum) (q : ℚ) : JSNum := if jsLt a (.fin q) then .fin q else a

/-- `durationByPhase.set(associatedPhase, (durationByPhase.get(associatedPhase) || 0) + duration)`
for one operation (no-op when there is no associated phase). -/
def phaseStep (m : List (ℕ × ℚ)) (o : OperationInfo) : List (ℕ × ℚ) :=
  match o.phase with
  | some p => setAssoc m p ((getAssoc m p).getD 0 + opDur o)
  | none => m

/-- The state accumulated by the gather loop of `_printTimeline`. -/
structure GatherState where
  data : List ITimelineRecord
  longestNameLength : ℕ
  longestDurationLength : ℕ
  allStart : JSNum
  allEnd : JSNum
  workDuration : ℚ
  durationByPhase : List (ℕ × ℚ)
deriving DecidableEq, Repr

/-- One iteration of the gather loop over `result.operationResults`. -/
def gatherStep (st : GatherState) (o : OperationInfo) : GatherState :=
  if o.silent then st
  else if truthy o.startTime && truthy o.endTime then
    { data := st.data ++ [toRecord o]
      longestNameLength := max st.longestNameLength (nameLenD o)
      longestDurationLength := max st.longestDurationLength (durLenD o)
      allStart := jsMinStep st.allStart (startD o)
      allEnd := jsMaxStep st.allEnd (endD o)
      workDuration := st.workDuration + opDur o
      durationByPhase := phaseStep st.durationByPhase o }
  else st

/-- The initial gather state (`data = []`, `allStart = Infinity`,
`allEnd = -Infinity`, counters at zero, empty phase map). -/
def gatherInit : GatherState :=
  { data := []
    longestNameLength := 0
    longestDurationLength := 0
    allStart := .posInf
    allEnd := .negInf
    workDuration := 0
    durationByPhase := [] }

/-- The whole gather loop of `_printTimeline`. -/
def gather (ops : List OperationInfo) : GatherState :=
  ops.foldl gatherStep gatherInit

/-- Stable insertion of a record into a start-time-sorted list (a record goes
after every record whose start time is `≤` its own), modelling the stable
`data.sort((a, b) => a.startTime - b.startTime)`. -/
def insertByStart (r : ITimelineRecord) : List ITimelineRecord → List ITimelineRecord
  | [] => [r]
  | x :: xs =>
      if x.startTime ≤ r.startTime then x :: insertByStart r xs else r :: x :: xs

/-- `data.sort((a, b) => a.startTime - b.startTime)` (stable, ascending). -/
def sortByStart (l : List ITimelineRecord) : List ITimelineRecord :=
  l.foldl (fun acc r => insertByStart r acc) []

/-- `getOpenCPU`: index of the first entry of `busyCpus` that is `≤ time`,
or `busyCpus.length` when there is none. -/
def getOpenCPU : List ℚ → ℚ → ℕ
  | [], _ => 0
  | b :: bs, t => if b ≤ t then 0 else getOpenCPU bs t + 1

/-- `busyCpus[getOpenCPU(startTime)] = endTime` (an assignment at index
`length` appends). -/
def assignCpu (busy : List ℚ) (startTime endTime : ℚ) : List ℚ :=
  if getOpenCPU busy startTime = busy.length then busy ++ [endTime]
  else busy.set (getOpenCPU busy startTime) endTime

/-- The busy-CPU update performed for one record of the render loop. -/
def stepCpu (busy : List ℚ) (r : ITimelineRecord) : List ℚ :=
  assignCpu busy r.startTime r.endTime

/-- The `busyCpus` list after the render loop has processed `recs` in order. -/
def runCpus (recs : List ITimelineRecord) : List ℚ :=
  recs.foldl stepCpu []

/-- Number of records whose half-open interval `[startTime, endTime)`
contains the instant `t`. -/
def overlapAt (recs : List ITimelineRecord) (t : ℚ) : ℕ :=
  recs.countP (fun r => decide (r.startTime ≤ t) && decide (t < r.endTime))

/-- The maximum number of simultaneously-overlapping `[startTime, endTime)`
intervals (the maximum of `overlapAt` over all start points; `overlapAt` at an
arbitrary instant never exceeds it). -/
def maxOverlap (recs : List ITimelineRecord) : ℕ :=
  (recs.map (fun r => overlapAt recs r.startTime)).foldl max 0

/-- `Math.floor(((t - allStart) * chartWidth) / allDuration)` — the column of
instant `t`, used for both `startIdx` and `endIdx`. -/
def colIdx (chartWidth : ℤ) (allStart allDuration : JSNum) (t : ℚ) : JSNum :=
  jsFloor (jsDiv (jsMul (jsSub (.fin t) allStart) (.fin (chartWidth : ℚ))) allDuration)

/-- The three `repeat` counts of one chart row (leading `-` fill, status
glyphs, trailing `-` fill): `startIdx`, `endIdx - startIdx + 1` and
`chartWidth - endIdx`.  `none` when any of the three `repeat` calls throws a
`RangeError`. -/
def rowCounts (chartWidth : ℤ) (allStart allDuration : JSNum) (r : ITimelineRecord) :
    Option (ℕ × ℕ × ℕ) :=
  match jsRepeatCount (colIdx chartWidth allStart allDuration r.startTime),
      jsRepeatCount
        (jsAdd
          (jsSub (colIdx chartWidth allStart allDuration r.endTime)
            (colIdx chartWidth allStart allDuration r.startTime))
          (.fin 1)),
      jsRepeatCount (jsSub (.fin (chartWidth : ℚ)) (colIdx chartWidth allStart allDuration r.endTime)) with
  | some a, some b, some c => some (a, b, c)
  | _, _, _ => none

/-- `chartWidth = maxWidth - longestNameLength - longestDurationLength - 4`. -/
def chartWidthOf (maxWidth : ℕ) (g : GatherState) : ℤ :=
  (maxWidth : ℤ) - g.longestNameLength - g.longestDurationLength - 4

/-- The repeat counts of every chart row the render loop prints. -/
def rowsOf (maxWidth : ℕ) (g : GatherState) : List (Option (ℕ × ℕ × ℕ)) :=
  g.data.map (rowCounts (chartWidthOf maxWidth g) g.allStart (jsSub g.allEnd g.allStart))

/-- `allDurationSeconds = (allEnd - allStart) / 1000`. -/
def wallClockSecondsOf (g : GatherState) : JSNum :=
  jsDiv (jsSub g.allEnd g.allStart) (.fin 1000)

/-- `workDuration / allDurationSeconds`, the printed average parallelism. -/
def avgParallelismJS (g : GatherState) : JSNum :=
  jsDiv (.fin g.workDuration) (wallClockSecondsOf g)

/-- `workDuration` of a record set: the sum of the per-operation durations. -/
def workDurationOf (recs : List ITimelineRecord) : ℚ :=
  (recs.map (fun r => opDurationOf r.startTime r.endTime)).sum

/-- `allStart` of a non-empty record set: the minimum start time
(`0` for the empty set, unused). -/
def allStartOf : List ITimelineRecord → ℚ
  | [] => 0
  | r :: rs => rs.foldl (fun a x => min a x.startTime) r.startTime

/-- `allEnd` of a non-empty record set: the maximum end time
(`0` for the empty set, unused). -/
def allEndOf : List ITimelineRecord → ℚ
  | [] => 0
  | r :: rs => rs.foldl (fun a x => max a x.endTime) r.endTime

/-- The average parallelism `workDuration / (allDuration in the same units)`:
work is measured in seconds, so the wall-clock duration is also divided
by 1000. -/
def avgParallelismOf (recs : List ITimelineRecord) : ℚ :=
  workDurationOf recs / ((allEndOf recs - allStartOf recs) / 1000)

/-- Modelled from the spec: tapable's `AsyncSeriesWaterfallHook` (the library
implementing `PhasedCommandHooks.createOperations`) is not under `src/`.  Per
the spec it is a sequential await-and-replace loop: each handler receives the
accumulated value plus the fixed context and its result replaces the
accumulator; the hook's result is the final accumulator.  `createOperations`
instantiates it at `[Set<Operation>, ICreateOperationsContext]`. -/
def waterfallCall {α κ : Type} (handlers : List (α → κ → α)) (init : α) (ctx : κ) : α :=
  handlers.foldl (fun acc h => h acc ctx) init

/-- The successive accumulator values seen while dispatching a waterfall hook:
entry `0` is the initial value, entry `i + 1` is what handler `i` returned
(and what handler `i + 1` receives). -/
def waterfallTrace {α κ : Type} (handlers : List (α → κ → α)) (init : α) (ctx : κ) : List α :=
  match handlers with
  | [] => [init]
  | h :: hs => init :: waterfallTrace hs (h init ctx) ctx

/-! ### Generic list helpers -/

lemma foldl_max_init_le (l : List ℕ) (a : ℕ) : a ≤ l.foldl max a := by
  induction l generalizing a with
  | nil => exact le_refl a
  | cons b l ih => exact le_trans (le_max_left a b) (ih (max a b))

lemma le_foldl_max (l : List ℕ) (a x : ℕ) (h : x ∈ l) : x ≤ l.foldl max a := by
  induction l generalizing a with
  | nil => cases h
  | cons b l ih =>
      rcases List.mem_cons.mp h with rfl | hmem
      · exact le_trans (le_max_right a x) (foldl_max_init_le l (max a x))
      · exact ih (max a b) hmem

lemma foldl_max_le (l : List ℕ) (a L : ℕ) (ha : a ≤ L) (h : ∀ x ∈ l, x ≤ L) :
    l.foldl max a ≤ L := by
  induction l generalizing a with
  | nil => exact ha
  | cons b l ih =>
      exact ih (max a b) (max_le ha (h b (List.mem_cons_self b l)))
        (fun x hx => h x (List.mem_cons_of_mem b hx))

lemma countP_set_of_false (p : ℚ → Bool) (l : List ℚ) :
    ∀ (i : ℕ) (x : ℚ) (h : i < l.length), p (l.get ⟨i, h⟩) = false →
      (l.set i x).countP p = l.countP p + (if p x then 1 else 0) := by
  induction l with
  | nil => intro i x h; simp at h
  | cons b l ih =>
      intro i x h hp
      match i with
      | 0 =>
          simp only [List.get] at hp
          simp [List.set, List.countP_cons, hp]
      | Nat.succ j =>
          simp only [List.get] at hp
          have hj : j < l.length := by simpa using h
          simp only [List.set, List.countP_cons]
          rw [ih j x hj hp]
          omega

lemma sum_map_set (f : ℚ → ℚ) (l : List ℚ) :
    ∀ (i : ℕ) (x : ℚ) (h : i < l.length),
      ((l.set i x).map f).sum = (l.map f).sum - f (l.get ⟨i, h⟩) + f x := by
  induction l with
  | nil => intro i x h; simp at h
  | cons b l ih =>
      intro i x h
      match i with
      | 0 => simp [List.set]; ring
      | Nat.succ j =>
          have hj : j < l.length := by simpa using h
          simp only [List.set, List.map_cons, List.sum_cons, List.get]
          rw [ih j x hj]
          ring

lemma getLast?_cons_of_ne_nil {α : Type} (a : α) (l : List α) (h : l ≠ []) :
    (a :: l).getLast? = l.getLast? := by
  cases l with
  | nil => exact absurd rfl h
  | cons b m => rfl

/-! ### The `createOperations` waterfall hook (C7) -/

lemma waterfallTrace_length {α κ : Type} (handlers : List (α → κ → α)) (init : α) (ctx : κ) :
    (waterfallTrace handlers init ctx).length = handlers.length + 1 := by
  induction handlers generalizing init with
  | nil => rfl
  | cons h hs ih => simp [waterfallTrace, ih]

lemma waterfallTrace_ne_nil {α κ : Type} (handlers : List (α → κ → α)) (init : α) (ctx : κ) :
    waterfallTrace handlers init ctx ≠ [] := by
  cases handlers <;> simp [waterfallTrace]

lemma waterfallTrace_head {α κ : Type} (handlers : List (α → κ → α)) (init : α) (ctx : κ) :
    (waterfallTrace handlers init ctx)[0]? = some init := by
  cases handlers <;> simp [waterfallTrace]

lemma waterfallTrace_getLast {α κ : Type} (handlers : List (α → κ → α)) (init : α) (ctx : κ) :
    (waterfallTrace handlers init ctx).getLast? = some (waterfallCall handlers init ctx) := by
  induction handlers generalizing init with
  | nil => rfl
  | cons h hs ih =>
      show (init :: waterfallTrace hs (h init ctx) ctx).getLast? = _
      rw [getLast?_cons_of_ne_nil _ _ (waterfallTrace_ne_nil hs (h init ctx) ctx), ih]
      rfl

lemma waterfallTrace_chain {α κ : Type} (handlers : List (α → κ → α)) (init : α) (ctx : κ) :
    ∀ i : ℕ, i < handlers.length →
      ∃ h a, handlers[i]? = some h ∧ (waterfallTrace handlers init ctx)[i]? = some a ∧
        (waterfallTrace handlers init ctx)[i + 1]? = some (h a ctx) := by
  induction handlers generalizing init with
  | nil => intro i hi; simp at hi
  | cons h hs ih =>
      intro i hi
      match i with
      | 0 =>
          refine ⟨h, init, by simp, waterfallTrace_head (h :: hs) init ctx, ?_⟩
          show (init :: waterfallTrace hs (h init ctx) ctx)[1]? = _
          simpa using waterfallTrace_head hs (h init ctx) ctx
      | Nat.succ j =>
          obtain ⟨h', a, h1, h2, h3⟩ := ih (h init ctx) j (by simpa using hi)
          refine ⟨h', a, by simpa using h1, ?_, ?_⟩
          · show (init :: waterfallTrace hs (h init ctx) ctx)[j + 1]? = _
            simpa using h2
          · show (init :: waterfallTrace hs (h init ctx) ctx)[j + 2]? = _
            simpa using h3

/-- C7: the `createOperations` hook dispatches as an ordered waterfall pipeline:
the trace of accumulated operation-set values starts at the initial set, handler
`i` (in registration order) receives exactly the value produced by handler
`i - 1` together with the unchanged context and produces the next value, and
the hook's overall result is the last handler's output. -/
theorem createOperations_waterfall {α κ : Type} (handlers : List (α → κ → α)) (init : α)
    (ctx : κ) :
    (waterfallTrace handlers init ctx).length = handlers.length + 1 ∧
    (waterfallTrace handlers init ctx)[0]? = some init ∧
    (∀ i : ℕ, i < handlers.length →
      ∃ h a, handlers[i]? = some h ∧ (waterfallTrace handlers init ctx)[i]? = some a ∧
        (waterfallTrace handlers init ctx)[i + 1]? = some (h a ctx)) ∧
    (waterfallTrace handlers init ctx).getLast? = some (waterfallCall handlers init ctx) :=
  ⟨waterfallTrace_length handlers init ctx, waterfallTrace_head handlers init ctx,
    waterfallTrace_chain handlers init ctx, waterfallTrace_getLast handlers init ctx⟩

/-- A sample first handler (adds an operation). -/
def wfHandlerA : ℕ → ℕ → ℕ := fun a _ => a + 1

/-- A sample second handler (doubles the set). -/
def wfHandlerB : ℕ → ℕ → ℕ := fun a _ => a * 2

/-- Witness for C7 at a concrete two-handler pipeline. -/
theorem createOperations_waterfall_witness :
    (waterfallTrace [wfHandlerA, wfHandlerB] 3 0).getLast? =
      some (waterfallCall [wfHandlerA, wfHandlerB] 3 0) :=
  (createOperations_waterfall [wfHandlerA, wfHandlerB] 3 0).2.2.2

/-! ### Chart glyphs (C10) -/

/-- C10: the chart glyph mapping collapses status categories: `Skipped`,
`FromCache` and `NoOp` all render as `%`, and `SuccessWithWarning` and
`Failure` both render as `!`, the two distinguished only by color
(`SuccessWithWarning` yellow, `Failure` red). -/
theorem chart_symbol_collapse :
    TIMELINE_CHART_SYMBOLS .Skipped = "%" ∧ TIMELINE_CHART_SYMBOLS .FromCache = "%" ∧
    TIMELINE_CHART_SYMBOLS .NoOp = "%" ∧
    TIMELINE_CHART_SYMBOLS .SuccessWithWarning = "!" ∧
    TIMELINE_CHART_SYMBOLS .Failure = "!" ∧
    TIMELINE_CHART_COLORIZER .SuccessWithWarning = ChartColor.yellow ∧
    TIMELINE_CHART_COLORIZER .Failure = ChartColor.red :=
  ⟨rfl, rfl, rfl, rfl, rfl, rfl, rfl⟩

/-! ### The gather loop: filtering and per-aggregate contributions (C4) -/

lemma gatherStep_not_eligible (st : GatherState) (o : OperationInfo)
    (h : eligible o = false) : gatherStep st o = st := by
  by_cases hs : o.silent = true
  · simp [gatherStep, hs]
  · have hs' : o.silent = false := by simpa using hs
    have hx := h
    simp only [eligible, hs', Bool.not_false, Bool.true_and] at hx
    simp [gatherStep, hs', hx]

lemma gatherStep_eligible (st : GatherState) (o : OperationInfo)
    (h : eligible o = true) :
    gatherStep st o =
      { data := st.data ++ [toRecord o]
        longestNameLength := max st.longestNameLength (nameLenD o)
        longestDurationLength := max st.longestDurationLength (durLenD o)
        allStart := jsMinStep st.allStart (startD o)
        allEnd := jsMaxStep st.allEnd (endD o)
        workDuration := st.workDuration + opDur o
        durationByPhase := phaseStep st.durationByPhase o } := by
  simp only [eligible, Bool.and_eq_true, Bool.not_eq_true'] at h
  simp [gatherStep, h.1, h.2.1, h.2.2]

lemma gather_data_aux (ops : List OperationInfo) : ∀ st : GatherState,
    (ops.foldl gatherStep st).data = st.data ++ (ops.filter eligible).map toRecord := by
  induction ops with
  | nil => intro st; simp
  | cons o rest ih =>
      intro st
      by_cases h : eligible o = true
      · rw [List.foldl_cons, gatherStep_eligible st o h, ih]
        simp [List.filter_cons, h]
      · have h' : eligible o = false := by simpa using h
        rw [List.foldl_cons, gatherStep_not_eligible st o h', ih]
        simp [List.filter_cons, h']

lemma gather_work_aux (ops : List OperationInfo) : ∀ st : GatherState,
    (ops.foldl gatherStep st).workDuration =
      st.workDuration + ((ops.filter eligible).map opDur).sum := by
  induction ops with
  | nil => intro st; simp
  | cons o rest ih =>
      intro st
      by_cases h : eligible o = true
      · rw [List.foldl_cons, gatherStep_eligible st o h, ih]
        simp [List.filter_cons, h, add_assoc]
      · have h' : eligible o = false := by simpa using h
        rw [List.foldl_cons, gatherStep_not_eligible st o h', ih]
        simp [List.filter_cons, h']

lemma gather_lnl_aux (ops : List OperationInfo) : ∀ st : GatherState,
    (ops.foldl gatherStep st).longestNameLength =
      ((ops.filter eligible).map nameLenD).foldl max st.longestNameLength := by
  induction ops with
  | nil => intro st; simp
  | cons o rest ih =>
      intro st
      by_cases h : eligible o = true
      · rw [List.foldl_cons, gatherStep_eligible st o h, ih]
        simp [List.filter_cons, h]
      · have h' : eligible o = false := by simpa using h
        rw [List.foldl_cons, gatherStep_not_eligible st o h', ih]
        simp [List.filter_cons, h']

lemma gather_ldl_aux (ops : List OperationInfo) : ∀ st : GatherState,
    (ops.foldl gatherStep st).longestDurationLength =
      ((ops.filter eligible).map durLenD).foldl max st.longestDurationLength := by
  induction ops with
  | nil => intro st; simp
  | cons o rest ih =>
      intro st
      by_cases h : eligible o = true
      · rw [List.foldl_cons, gatherStep_eligible st o h, ih]
        simp [List.filter_cons, h]
      · have h' : eligible o = false := by simpa using h
        rw [List.foldl_cons, gatherStep_not_eligible st o h', ih]
        simp [List.filter_cons, h']

lemma gather_allStart_aux (ops : List OperationInfo) : ∀ st : GatherState,
    (ops.foldl gatherStep st).allStart =
      ((ops.filter eligible).map startD).foldl jsMinStep st.allStart := by
  induction ops with
  | nil => intro st; simp
  | cons o rest ih =>
      intro st
      by_cases h : eligible o = true
      · rw [List.foldl_cons, gatherStep_eligible st o h, ih]
        simp [List.filter_cons, h]
      · have h' : eligible o = false := by simpa using h
        rw [List.foldl_cons, gatherStep_not_eligible st o h', ih]
        simp [List.filter_cons, h']

lemma gather_allEnd_aux (ops : List OperationInfo) : ∀ st : GatherState,
    (ops.foldl gatherStep st).allEnd =
      ((ops.filter eligible).map endD).foldl jsMaxStep st.allEnd := by
  induction ops with
  | nil => intro st; simp
  | cons o rest ih =>
      intro st
      by_cases h : eligible o = true
      · rw [List.foldl_cons, gatherStep_eligible st o h, ih]
        simp [List.filter_cons, h]
      · have h' : eligible o = false := by simpa using h
        rw [List.foldl_cons, gatherStep_not_eligible st o h', ih]
        simp [List.filter_cons, h']

lemma gather_phase_aux (ops : List OperationInfo) : ∀ st : GatherState,
    (ops.foldl gatherStep st).durationByPhase =
      (ops.filter eligible).foldl phaseStep st.durationByPhase := by
  induction ops with
  | nil => intro st; simp
  | cons o rest ih =>
      intro st
      by_cases h : eligible o = true
      · rw [List.foldl_cons, gatherStep_eligible st o h, ih]
        simp [List.filter_cons, h]
      · have h' : eligible o = false := by simpa using h
        rw [List.foldl_cons, gatherStep_not_eligible st o h', ih]
        simp [List.filter_cons, h']

/-- C4: the gather loop filters out exactly the operations whose runner is
silent or whose stopwatch fails to have both timestamps (the `startTime &&
endTime` truthiness check); every other operation of the result map
contributes exactly one record to the chart data, and exactly its own
name-length, duration-string-length, start time, end time and duration to
`longestNameLength`, `longestDurationLength`, `allStart`, `allEnd` and
`workDuration` respectively (each aggregate is the fold of the code's update
over precisely the filtered operation list, in order). -/
theorem timeline_filter_exact (ops : List OperationInfo) :
    (gather ops).data = (ops.filter eligible).map toRecord ∧
    (gather ops).workDuration = ((ops.filter eligible).map opDur).sum ∧
    (gather ops).longestNameLength = ((ops.filter eligible).map nameLenD).foldl max 0 ∧
    (gather ops).longestDurationLength = ((ops.filter eligible).map durLenD).foldl max 0 ∧
    (gather ops).allStart = ((ops.filter eligible).map startD).foldl jsMinStep JSNum.posInf ∧
    (gather ops).allEnd = ((ops.filter eligible).map endD).foldl jsMaxStep JSNum.negInf ∧
    (gather ops).durationByPhase = (ops.filter eligible).foldl phaseStep [] := by
  unfold gather
  refine ⟨?_, ?_, ?_, ?_, ?_, ?_, ?_⟩
  · rw [gather_data_aux]; simp [gatherInit]
  · rw [gather_work_aux]; simp [gatherInit]
  · rw [gather_lnl_aux]; rfl
  · rw [gather_ldl_aux]; rfl
  · rw [gather_allStart_aux]; rfl
  · rw [gather_allEnd_aux]; rfl
  · rw [gather_phase_aux]; rfl

/-! ### The per-phase duration map (C8) -/

lemma getAssoc_setAssoc_self (m : List (ℕ × ℚ)) (k : ℕ) (v : ℚ) :
    getAssoc (setAssoc m k v) k = some v := by
  induction m with
  | nil => simp [setAssoc, getAssoc]
  | cons kv rest ih =>
      obtain ⟨k', w⟩ := kv
      by_cases h : k' = k
      · simp [setAssoc, getAssoc, h]
      · simp [setAssoc, getAssoc, h, ih]

lemma getAssoc_setAssoc_ne (m : List (ℕ × ℚ)) (k k' : ℕ) (v : ℚ) (h : k ≠ k') :
    getAssoc (setAssoc m k v) k' = getAssoc m k' := by
  induction m with
  | nil => simp [setAssoc, getAssoc, h]
  | cons kv rest ih =>
      obtain ⟨k'', w⟩ := kv
      by_cases h2 : k'' = k
      · subst h2
        simp [setAssoc, getAssoc, h]
      · simp [setAssoc, getAssoc, h2, ih]

lemma setAssoc_ne_nil (m : List (ℕ × ℚ)) (k : ℕ) (v : ℚ) : setAssoc m k v ≠ [] := by
  cases m with
  | nil => simp [setAssoc]
  | cons kv rest =>
      obtain ⟨k', w⟩ := kv
      by_cases h : k' = k <;> simp [setAssoc, h]

lemma phaseStep_none (m : List (ℕ × ℚ)) (o : OperationInfo) (h : o.phase = none) :
    phaseStep m o = m := by
  simp [phaseStep, h]

lemma phaseStep_some (m : List (ℕ × ℚ)) (o : OperationInfo) (k : ℕ) (h : o.phase = some k) :
    phaseStep m o = setAssoc m k ((getAssoc m k).getD 0 + opDur o) := by
  simp [phaseStep, h]

lemma phaseFold_ne_nil_of_ne_nil (l : List OperationInfo) : ∀ m : List (ℕ × ℚ), m ≠ [] →
    l.foldl phaseStep m ≠ [] := by
  induction l with
  | nil => intro m hm; simpa using hm
  | cons o rest ih =>
      intro m hm
      rw [List.foldl_cons]
      cases hph : o.phase with
      | none => rw [phaseStep_none m o hph]; exact ih m hm
      | some k =>
          rw [phaseStep_some m o k hph]
          exact ih _ (setAssoc_ne_nil m k _)

lemma phaseFold_ne_nil (l : List OperationInfo) : ∀ m : List (ℕ × ℚ),
    (l.foldl phaseStep m ≠ [] ↔ (m ≠ [] ∨ ∃ o ∈ l, o.phase ≠ none)) := by
  induction l with
  | nil => intro m; simp
  | cons o rest ih =>
      intro m
      rw [List.foldl_cons]
      cases hph : o.phase with
      | none =>
          rw [phaseStep_none m o hph, ih m]
          constructor
          · rintro (hm | ⟨o', ho', hp⟩)
            · exact Or.inl hm
            · exact Or.inr ⟨o', List.mem_cons_of_mem o ho', hp⟩
          · rintro (hm | ⟨o', ho', hp⟩)
            · exact Or.inl hm
            · rcases List.mem_cons.mp ho' with rfl | ho''
              · exact absurd hph hp
              · exact Or.inr ⟨o', ho'', hp⟩
      | some k =>
          rw [phaseStep_some m o k hph]
          constructor
          · intro _
            exact Or.inr ⟨o, List.mem_cons_self o rest, by simp [hph]⟩
          · intro _
            exact phaseFold_ne_nil_of_ne_nil rest _ (setAssoc_ne_nil m k _)

lemma phaseFold_getAssoc (l : List OperationInfo) : ∀ (m : List (ℕ × ℚ)) (p : ℕ),
    getAssoc (l.foldl phaseStep m) p =
      if l.filter (fun o => o.phase == some p) = [] then getAssoc m p
      else some ((getAssoc m p).getD 0 +
        ((l.filter (fun o => o.phase == some p)).map opDur).sum) := by
  induction l with
  | nil => intro m p; simp
  | cons o rest ih =>
      intro m p
      rw [List.foldl_cons]
      cases hph : o.phase with
      | none =>
          have hf : (o.phase == some p) = false := by simp [hph]
          rw [phaseStep_none m o hph, ih m p]
          simp [List.filter_cons, hf]
      | some k =>
          by_cases hk : k = p
          · subst hk
            have hf : (o.phase == some k) = true := by simp [hph]
            rw [phaseStep_some m o k hph, ih]
            by_cases hrest : rest.filter (fun o' => o'.phase == some k) = []
            · simp [List.filter_cons, hf, hrest, getAssoc_setAssoc_self]
            · simp only [List.filter_cons, hf, if_pos, hrest, if_neg,
                getAssoc_setAssoc_self, List.map_cons, List.sum_cons]
              rw [if_neg (by simp [hrest])]
              simp [add_assoc]
          · have hf : (o.phase == some p) = false := by simp [hph, hk]
            rw [phaseStep_some m o k hph, ih]
            rw [getAssoc_setAssoc_ne m k p _ hk]
            simp [List.filter_cons, hf]

/-- C8: for every phase, the per-phase duration grouping sums exactly the
durations of the eligible operations whose `associatedPhase` is that phase
(`none` when there is no such operation); operations with no associated phase
are excluded; and the `BY PHASE` section is printed (`durationByPhase`
non-empty) iff at least one eligible operation has an associated phase. -/
theorem phase_grouping (ops : List OperationInfo) (p : ℕ) :
    (getAssoc (gather ops).durationByPhase p = none ↔
      ops.filter (fun o => eligible o && o.phase == some p) = []) ∧
    (getAssoc (gather ops).durationByPhase p).getD 0 =
      ((ops.filter (fun o => eligible o && o.phase == some p)).map opDur).sum ∧
    ((gather ops).durationByPhase ≠ [] ↔
      ∃ o ∈ ops, eligible o = true ∧ o.phase ≠ none) := by
  have hb : (gather ops).durationByPhase = (ops.filter eligible).foldl phaseStep [] :=
    (timeline_filter_exact ops).2.2.2.2.2.2
  have hfilter : (ops.filter eligible).filter (fun o => o.phase == some p) =
      ops.filter (fun o => eligible o && o.phase == some p) := by
    rw [List.filter_filter]
    congr 1
    funext a
    rw [Bool.and_comm]
  rw [hb, phaseFold_getAssoc, hfilter]
  refine ⟨?_, ?_, ?_⟩
  · by_cases hrest : ops.filter (fun o => eligible o && o.phase == some p) = []
    · simp [hrest, getAssoc]
    · simp [hrest]
  · by_cases hrest : ops.filter (fun o => eligible o && o.phase == some p) = []
    · simp [hrest, getAssoc]
    · simp [hrest, getAssoc]
  · rw [phaseFold_ne_nil]
    simp only [List.mem_filter, ne_eq, not_true_eq_false, false_or]
    tauto

/-! ### `allStart`/`allEnd` extraction and the degenerate charts (C2, C6, C3) -/

lemma truthy_eq_true_iff (x : Option ℚ) : truthy x = true ↔ ∃ q, x = some q ∧ q ≠ 0 := by
  cases x <;> simp [truthy]

lemma eligible_elim (o : OperationInfo) (h : eligible o = true) :
    o.silent = false ∧ truthy o.startTime = true ∧ truthy o.endTime = true := by
  simpa [eligible, Bool.and_eq_true, Bool.not_eq_true'] using h

lemma jsMinStep_fin (a q : ℚ) : jsMinStep (.fin a) q = .fin (min a q) := by
  by_cases h : q < a
  · simp [jsMinStep, jsLt, h, min_def, not_le.mpr h, le_of_lt h]
  · simp [jsMinStep, jsLt, h, min_def, not_lt.mp h]

lemma jsMaxStep_fin (a q : ℚ) : jsMaxStep (.fin a) q = .fin (max a q) := by
  by_cases h : a < q
  · simp [jsMaxStep, jsLt, h, max_def, le_of_lt h]
  · have hq : q ≤ a := not_lt.mp h
    by_cases he : a ≤ q
    · have hqa : a = q := le_antisymm he hq
      subst hqa
      simp [jsMaxStep, jsLt, max_def]
    · simp [jsMaxStep, jsLt, h, max_def, he]

lemma jsMinFold_fin (l : List ℚ) : ∀ a : ℚ,
    l.foldl jsMinStep (.fin a) = .fin (l.foldl min a) := by
  induction l with
  | nil => intro a; rfl
  | cons q l ih => intro a; rw [List.foldl_cons, jsMinStep_fin, ih, List.foldl_cons]

lemma jsMaxFold_fin (l : List ℚ) : ∀ a : ℚ,
    l.foldl jsMaxStep (.fin a) = .fin (l.foldl max a) := by
  induction l with
  | nil => intro a; rfl
  | cons q l ih => intro a; rw [List.foldl_cons, jsMaxStep_fin, ih, List.foldl_cons]

lemma jsMinFold_cons (q : ℚ) (l : List ℚ) :
    (q :: l).foldl jsMinStep .posInf = .fin (l.foldl min q) := by
  rw [List.foldl_cons, show jsMinStep .posInf q = .fin q from by simp [jsMinStep, jsLt],
    jsMinFold_fin]

lemma jsMaxFold_cons (q : ℚ) (l : List ℚ) :
    (q :: l).foldl jsMaxStep .negInf = .fin (l.foldl max q) := by
  rw [List.foldl_cons, show jsMaxStep .negInf q = .fin q from by simp [jsMaxStep, jsLt],
    jsMaxFold_fin]

lemma min_foldl_le_init (l : List ℚ) (a : ℚ) : l.foldl min a ≤ a := by
  induction l generalizing a with
  | nil => exact le_refl a
  | cons b l ih => exact le_trans (ih (min a b)) (min_le_left a b)

lemma min_foldl_le_mem (l : List ℚ) (a x : ℚ) (h : x ∈ l) : l.foldl min a ≤ x := by
  induction l generalizing a with
  | nil => cases h
  | cons b l ih =>
      rcases List.mem_cons.mp h with rfl | hmem
      · exact le_trans (min_foldl_le_init l (min a x)) (min_le_right a x)
      · exact ih (min a b) hmem

lemma le_max_foldl_init (l : List ℚ) (a : ℚ) : a ≤ l.foldl max a := by
  induction l generalizing a with
  | nil => exact le_refl a
  | cons b l ih => exact le_trans (le_max_left a b) (ih (max a b))

lemma le_max_foldl_mem (l : List ℚ) (a x : ℚ) (h : x ∈ l) : x ≤ l.foldl max a := by
  induction l generalizing a with
  | nil => cases h
  | cons b l ih =>
      rcases List.mem_cons.mp h with rfl | hmem
      · exact le_trans (le_max_right a x) (le_max_foldl_init l (max a x))
      · exact ih (max a b) hmem

lemma record_bounds (ops : List OperationInfo)
    (hse : ∀ o ∈ ops, ∀ s ∈ o.startTime, ∀ e ∈ o.endTime, s ≤ e) :
    ∀ r ∈ (gather ops).data, ∃ S E : ℚ,
      (gather ops).allStart = .fin S ∧ (gather ops).allEnd = .fin E ∧
      S ≤ r.startTime ∧ r.startTime ≤ r.endTime ∧ r.endTime ≤ E := by
  intro r hr
  obtain ⟨hdata, _, _, _, hstart, hend, _⟩ := timeline_filter_exact ops
  rw [hdata] at hr
  obtain ⟨o, ho, rfl⟩ := List.mem_map.mp hr
  have hmemS : startD o ∈ (ops.filter eligible).map startD := List.mem_map_of_mem startD ho
  have hmemE : endD o ∈ (ops.filter eligible).map endD := List.mem_map_of_mem endD ho
  obtain ⟨s0, srest, hs0⟩ :
      ∃ b L, (ops.filter eligible).map startD = b :: L :=
    List.exists_cons_of_ne_nil (List.ne_nil_of_mem hmemS)
  obtain ⟨e0, erest, he0⟩ :
      ∃ b L, (ops.filter eligible).map endD = b :: L :=
    List.exists_cons_of_ne_nil (List.ne_nil_of_mem hmemE)
  refine ⟨srest.foldl min s0, erest.foldl max e0, ?_, ?_, ?_, ?_, ?_⟩
  · rw [hstart, hs0, jsMinFold_cons]
  · rw [hend, he0, jsMaxFold_cons]
  · show srest.foldl min s0 ≤ (toRecord o).startTime
    have : (toRecord o).startTime = startD o := rfl
    rw [this]
    rw [hs0] at hmemS
    rcases List.mem_cons.mp hmemS with heq | hmem
    · rw [heq]; exact min_foldl_le_init srest s0
    · exact min_foldl_le_mem srest s0 _ hmem
  · show (toRecord o).startTime ≤ (toRecord o).endTime
    have hel := eligible_elim o (List.mem_filter.mp ho).2
    obtain ⟨s, hsome, _⟩ := (truthy_eq_true_iff o.startTime).mp hel.2.1
    obtain ⟨e, hesome, _⟩ := (truthy_eq_true_iff o.endTime).mp hel.2.2
    have : (toRecord o).startTime = s ∧ (toRecord o).endTime = e := by
      constructor <;> simp [toRecord, hsome, hesome]
    rw [this.1, this.2]
    exact hse o (List.mem_filter.mp ho).1 s hsome e hesome
  · show (toRecord o).endTime ≤ erest.foldl max e0
    have : (toRecord o).endTime = endD o := rfl
    rw [this]
    rw [he0] at hmemE
    rcases List.mem_cons.mp hmemE with heq | hmem
    · rw [heq]; exact le_max_foldl_init erest e0
    · exact le_max_foldl_mem erest e0 _ hmem

/-- C2: when the filtered operation set is non-empty and
`allDuration = allEnd - allStart` is zero (simultaneous zero-length
operations), the chart-row computation performs no failing operation: the
`0/0` divisions produce `NaN`, `Math.floor` keeps it, and each of the three
`repeat` counts coerces to `0`, so every row renders as a well-defined
zero-width (degenerate) chart row rather than an error. -/
theorem degenerate_zero_duration_chart (ops : List OperationInfo)
    (hse : ∀ o ∈ ops, ∀ s ∈ o.startTime, ∀ e ∈ o.endTime, s ≤ e)
    (hne : (gather ops).data ≠ [])
    (hdur : jsSub (gather ops).allEnd (gather ops).allStart = .fin 0) (cw : ℤ) :
    ∀ r ∈ (gather ops).data,
      rowCounts cw (gather ops).allStart (jsSub (gather ops).allEnd (gather ops).allStart) r =
        some (0, 0, 0) := by
  intro r hr
  obtain ⟨S, E, hS, hE, h1, h2, h3⟩ := record_bounds ops hse r hr
  rw [hS, hE] at hdur ⊢
  have hES : E = S := by
    have : (E - S : ℚ) = 0 := by
      simpa [jsSub] using hdur
    linarith
  have hrS : r.startTime = S := le_antisymm (by linarith) h1
  have hrE : r.endTime = S := le_antisymm (by linarith) (by linarith)
  rw [hES]
  simp [rowCounts, colIdx, hrS, hrE, jsSub, sub_self, jsMul, zero_mul, jsDiv, jsFloor,
    jsAdd, jsRepeatCount]

/-- The operation used in the C2 witness: non-silent, zero length
(`startTime = endTime = 5`). -/
def c2op : OperationInfo :=
  { name := some "a", silent := false, startTime := some 5, endTime := some 5,
    status := .Success, phase := none }

/-- Witness for C2: the single zero-length operation renders a zero-width row. -/
theorem degenerate_zero_duration_chart_witness :
    rowCounts 100 (gather [c2op]).allStart
      (jsSub (gather [c2op]).allEnd (gather [c2op]).allStart) (toRecord c2op) =
      some (0, 0, 0) :=
  degenerate_zero_duration_chart [c2op] (by decide)
    (by with_unfolding_all decide) (by with_unfolding_all decide) 100 (toRecord c2op)
    (by with_unfolding_all decide)

/-- C6 (amended): with zero eligible operations the analyzer performs no
division error and renders no chart rows; `workDuration`, the used-CPU count
and the average parallelism (`0 / -∞ = 0`) are all finite zeros, but the wall
clock value `allEnd - allStart = (-∞) - (+∞) = -∞` is *not* finite (the
summary prints `Wall Clock: -Infinitys`). -/
theorem empty_report_shape (ops : List OperationInfo)
    (h : ∀ o ∈ ops, eligible o = false) (maxWidth : ℕ) :
    (gather ops).data = [] ∧ rowsOf maxWidth (gather ops) = [] ∧
    (gather ops).workDuration = 0 ∧ (runCpus (gather ops).data).length = 0 ∧
    wallClockSecondsOf (gather ops) = JSNum.negInf ∧
    (wallClockSecondsOf (gather ops)).isFinite = false ∧
    avgParallelismJS (gather ops) = .fin 0 := by
  have hfe : ops.filter eligible = [] := by
    rw [List.filter_eq_nil_iff]
    intro o ho
    simp [h o ho]
  obtain ⟨hdata, hwork, _, _, hstart, hend, _⟩ := timeline_filter_exact ops
  rw [hfe] at hdata hwork hstart hend
  simp only [List.map_nil, List.foldl_nil, List.sum_nil] at hdata hwork hstart hend
  have hwall : wallClockSecondsOf (gather ops) = JSNum.negInf := by
    rw [wallClockSecondsOf, hstart, hend]
    show jsDiv (jsSub JSNum.negInf JSNum.posInf) (JSNum.fin 1000) = JSNum.negInf
    rw [show jsSub JSNum.negInf JSNum.posInf = JSNum.negInf from rfl]
    show (if (0 : ℚ) ≤ 1000 then JSNum.negInf else JSNum.posInf) = JSNum.negInf
    rw [if_pos (by norm_num)]
  refine ⟨hdata, ?_, hwork, ?_, hwall, ?_, ?_⟩
  · simp [rowsOf, hdata]
  · simp [runCpus, hdata]
  · rw [hwall]; rfl
  · rw [avgParallelismJS, hwall, hwork]; rfl

/-- The operation used in the C6 counterexample and witness: its runner is
silent, so the report has zero eligible operations. -/
def c6op : OperationInfo :=
  { name := some "x", silent := true, startTime := some 1, endTime := some 2,
    status := .Success, phase := some 0 }

/-- Counterexample for C6 as stated: with zero eligible operations the report
is emitted without errors, but the Wall Clock summary value is `-Infinity`
(`allEnd - allStart` with the sentinel initial values), not a finite value. -/
theorem empty_report_wall_clock_not_finite :
    (gather [c6op]).data = [] ∧ wallClockSecondsOf (gather [c6op]) = JSNum.negInf ∧
    (wallClockSecondsOf (gather [c6op])).isFinite = false := by
  refine ⟨by decide, by with_unfolding_all decide, by with_unfolding_all decide⟩

/-- Witness for C6 (amended) at a concrete silent-only operation set. -/
theorem empty_report_shape_witness :
    (gather [c6op]).data = [] ∧ rowsOf 109 (gather [c6op]) = [] ∧
    (gather [c6op]).workDuration = 0 ∧ (runCpus (gather [c6op]).data).length = 0 ∧
    wallClockSecondsOf (gather [c6op]) = JSNum.negInf ∧
    (wallClockSecondsOf (gather [c6op])).isFinite = false ∧
    avgParallelismJS (gather [c6op]) = .fin 0 :=
  empty_report_shape [c6op] (by decide) 109

/-- The operation used in the C3 failing input: non-silent, name of length 5,
runs from 1ms to 1001ms (duration string `"1.0"`, length 3). -/
def c3op : OperationInfo :=
  { name := some "aaaaa", silent := false, startTime := some 1, endTime := some 1001,
    status := .Success, phase := none }

/-- C3 is a code bug: with a console width of 10, the chart width collapses to
`10 - 5 - 3 - 4 = -2`, and the single rendered row computes the glyph count
`endIdx - startIdx + 1 = (-2) - 0 + 1 = -1 < 0`, so `String.repeat` throws a
`RangeError` (`none`): the implementation does not clamp the negative-width
fill the spec requires it to handle. -/
theorem chart_negative_width_range_error :
    chartWidthOf 10 (gather [c3op]) = -2 ∧ rowsOf 10 (gather [c3op]) = [none] := by
  refine ⟨by with_unfolding_all decide, by with_unfolding_all decide⟩

/-! ### Row width invariant (C9) -/

lemma jsTrunc_intCast (n : ℤ) : jsTrunc (n : ℚ) = n := by
  unfold jsTrunc
  by_cases h : (n : ℚ) < 0
  · rw [if_pos h, show (-(n : ℚ)) = ((-n : ℤ) : ℚ) from by push_cast; ring,
      Int.floor_intCast]
    omega
  · rw [if_neg h]
    exact Int.floor_intCast n

lemma jsRepeatCount_intCast (n : ℤ) :
    jsRepeatCount (.fin (n : ℚ)) = if n < 0 then none else some n.toNat := by
  simp [jsRepeatCount, jsTrunc_intCast]

/-- C9: for a rendered timeline row whose computed columns satisfy
`0 ≤ startIdx ≤ endIdx ≤ chartWidth`, the bar consists of exactly
`chartWidth + 1` glyphs: `startIdx` leading fillers, then
`endIdx - startIdx + 1 ≥ 1` status glyphs (so every rendered operation shows
at least one status glyph, even zero-duration ones), then
`chartWidth - endIdx` trailing fillers — all rows of one chart have equal
width. -/
theorem row_width_invariant (cw : ℤ) (aS aD : JSNum) (r : ITimelineRecord) (s e : ℤ)
    (hs : colIdx cw aS aD r.startTime = .fin (s : ℚ))
    (he : colIdx cw aS aD r.endTime = .fin (e : ℚ))
    (h0 : 0 ≤ s) (hse : s ≤ e) (hec : e ≤ cw) :
    rowCounts cw aS aD r = some (s.toNat, (e - s + 1).toNat, (cw - e).toNat) ∧
    s.toNat + (e - s + 1).toNat + (cw - e).toNat = cw.toNat + 1 ∧
    1 ≤ (e - s + 1).toNat := by
  refine ⟨?_, by omega, by omega⟩
  rw [rowCounts, hs, he]
  have h2 : jsAdd (jsSub (.fin (e : ℚ)) (.fin (s : ℚ))) (.fin 1) =
      .fin ((e - s + 1 : ℤ) : ℚ) := by
    simp only [jsSub, jsAdd]
    congr 1
    push_cast
    ring
  have h3 : jsSub (.fin ((cw : ℤ) : ℚ)) (.fin (e : ℚ)) = .fin ((cw - e : ℤ) : ℚ) := by
    simp only [jsSub]
    congr 1
    push_cast
    ring
  rw [h2, h3, jsRepeatCount_intCast, if_neg (by omega), jsRepeatCount_intCast,
    if_neg (by omega), jsRepeatCount_intCast, if_neg (by omega)]

/-- The record used in the C9 witness (runs over the whole chart). -/
def c9rec : ITimelineRecord :=
  { startTime := 0, endTime := 10, durationString := "0.0", name := "op", status := .Success }

/-- Witness for C9 at concrete columns `startIdx = 0`, `endIdx = 5`,
`chartWidth = 5`. -/
theorem row_width_invariant_witness :
    rowCounts 5 (.fin 0) (.fin 10) c9rec = some ((0:ℤ).toNat, ((5:ℤ) - 0 + 1).toNat, ((5:ℤ) - 5).toNat) ∧
    (0:ℤ).toNat + ((5:ℤ) - 0 + 1).toNat + ((5:ℤ) - 5).toNat = (5:ℤ).toNat + 1 ∧
    1 ≤ ((5:ℤ) - 0 + 1).toNat :=
  row_width_invariant 5 (.fin 0) (.fin 10) c9rec 0 5
    (by with_unfolding_all decide) (by with_unfolding_all decide)
    (by decide) (by decide) (by decide)

/-! ### The busy-CPU reconstruction: basic lemmas -/

lemma getOpenCPU_le (busy : List ℚ) (t : ℚ) : getOpenCPU busy t ≤ busy.length := by
  induction busy with
  | nil => exact Nat.le_refl 0
  | cons b bs ih =>
      by_cases hb : b ≤ t
      · simp [getOpenCPU, hb]
      · simp only [getOpenCPU, hb, if_false, List.length_cons]
        omega

lemma getOpenCPU_get (busy : List ℚ) (t : ℚ) :
    ∀ h : getOpenCPU busy t < busy.length, busy.get ⟨getOpenCPU busy t, h⟩ ≤ t := by
  induction busy with
  | nil => intro h; simp [getOpenCPU] at h
  | cons b bs ih =>
      by_cases hb : b ≤ t
      · have h0 : getOpenCPU (b :: bs) t = 0 := by simp [getOpenCPU, hb]
        rw [h0]
        intro _
        exact hb
      · have h0 : getOpenCPU (b :: bs) t = getOpenCPU bs t + 1 := by
          simp [getOpenCPU, hb]
        rw [h0]
        intro h
        have hlt : getOpenCPU bs t < bs.length := by simpa using h
        exact ih hlt

lemma getOpenCPU_eq_length_iff (busy : List ℚ) (t : ℚ) :
    getOpenCPU busy t = busy.length ↔ ∀ b ∈ busy, t < b := by
  induction busy with
  | nil => simp [getOpenCPU]
  | cons b bs ih =>
      by_cases hb : b ≤ t
      · simp only [getOpenCPU, hb, if_true, List.length_cons]
        constructor
        · intro h; omega
        · intro h; exact absurd (h b (List.mem_cons_self b bs)) (not_lt.mpr hb)
      · simp only [getOpenCPU, hb, if_false, List.length_cons, List.mem_cons]
        constructor
        · intro h
          rintro b' (rfl | hmem)
          · exact not_le.mp hb
          · exact (ih.mp (by omega)) b' hmem
        · intro h
          have : getOpenCPU bs t = bs.length := ih.mpr (fun b' hb' => h b' (Or.inr hb'))
          omega

lemma stepCpu_length (busy : List ℚ) (r : ITimelineRecord) :
    (stepCpu busy r).length =
      if getOpenCPU busy r.startTime = busy.length then busy.length + 1
      else busy.length := by
  unfold stepCpu assignCpu
  by_cases hcase : getOpenCPU busy r.startTime = busy.length
  · simp [hcase]
  · simp [hcase]

lemma stepCpu_length_le (busy : List ℚ) (r : ITimelineRecord) :
    busy.length ≤ (stepCpu busy r).length := by
  rw [stepCpu_length]
  split <;> omega

lemma foldl_stepCpu_length_le (todo : List ITimelineRecord) :
    ∀ busy : List ℚ, busy.length ≤ (todo.foldl stepCpu busy).length := by
  induction todo with
  | nil => intro busy; exact Nat.le_refl _
  | cons r rest ih =>
      intro busy
      exact le_trans (stepCpu_length_le busy r) (ih (stepCpu busy r))

/-! ### Average parallelism bound (C5) -/

lemma stepCpu_le_bound (busy : List ℚ) (r : ITimelineRecord) (E : ℚ)
    (hb : ∀ b ∈ busy, b ≤ E) (hr : r.endTime ≤ E) : ∀ b ∈ stepCpu busy r, b ≤ E := by
  intro b hbmem
  unfold stepCpu assignCpu at hbmem
  by_cases hcase : getOpenCPU busy r.startTime = busy.length
  · rw [if_pos hcase] at hbmem
    rcases List.mem_append.mp hbmem with h | h
    · exact hb b h
    · simp only [List.mem_singleton] at h
      rw [h]; exact hr
  · rw [if_neg hcase] at hbmem
    rcases List.mem_or_eq_of_mem_set hbmem with h | h
    · exact hb b h
    · rw [h]; exact hr

/-- The total headroom `Σ (busyCpus[i] - S)` of the reconstruction state. -/
def busySumFrom (S : ℚ) (busy : List ℚ) : ℚ := (busy.map (fun b => b - S)).sum

lemma busySum_step (S : ℚ) (busy : List ℚ) (r : ITimelineRecord) (hS : S ≤ r.startTime) :
    busySumFrom S busy + (r.endTime - r.startTime) ≤ busySumFrom S (stepCpu busy r) := by
  unfold stepCpu assignCpu
  by_cases hcase : getOpenCPU busy r.startTime = busy.length
  · rw [if_pos hcase]
    unfold busySumFrom
    rw [List.map_append, List.sum_append]
    simp only [List.map_cons, List.map_nil, List.sum_cons, List.sum_nil]
    linarith
  · rw [if_neg hcase]
    have hlt : getOpenCPU busy r.startTime < busy.length :=
      lt_of_le_of_ne (getOpenCPU_le _ _) hcase
    have hget : busy.get ⟨getOpenCPU busy r.startTime, hlt⟩ ≤ r.startTime :=
      getOpenCPU_get busy r.startTime hlt
    unfold busySumFrom
    rw [sum_map_set (fun b => b - S) busy _ r.endTime hlt]
    linarith

lemma cpu_fold_bound (E S : ℚ) :
    ∀ (todo : List ITimelineRecord) (busy : List ℚ),
      (∀ r ∈ todo, S ≤ r.startTime ∧ r.endTime ≤ E) → (∀ b ∈ busy, b ≤ E) →
      (∀ b ∈ todo.foldl stepCpu busy, b ≤ E) ∧
      busySumFrom S busy + (todo.map (fun r => r.endTime - r.startTime)).sum ≤
        busySumFrom S (todo.foldl stepCpu busy) := by
  intro todo
  induction todo with
  | nil =>
      intro busy _ hb
      exact ⟨hb, by simp⟩
  | cons r rest ih =>
      intro busy h hb
      have hr := h r (List.mem_cons_self r rest)
      have hb' := stepCpu_le_bound busy r E hb hr.2
      obtain ⟨hfinal, hsum⟩ :=
        ih (stepCpu busy r) (fun r' h' => h r' (List.mem_cons_of_mem r h')) hb'
      refine ⟨hfinal, ?_⟩
      have hstep := busySum_step S busy r hr.1
      simp only [List.map_cons, List.sum_cons, List.foldl_cons]
      linarith

lemma rec_min_foldl_le_init (l : List ITimelineRecord) (a : ℚ) :
    l.foldl (fun x y => min x y.startTime) a ≤ a := by
  induction l generalizing a with
  | nil => exact le_refl a
  | cons b l ih => exact le_trans (ih (min a b.startTime)) (min_le_left a b.startTime)

lemma rec_min_foldl_le_mem (l : List ITimelineRecord) (a : ℚ) (r : ITimelineRecord)
    (h : r ∈ l) : l.foldl (fun x y => min x y.startTime) a ≤ r.startTime := by
  induction l generalizing a with
  | nil => cases h
  | cons b l ih =>
      rcases List.mem_cons.mp h with rfl | hmem
      · exact le_trans (rec_min_foldl_le_init l (min a r.startTime))
          (min_le_right a r.startTime)
      · exact ih (min a b.startTime) hmem

lemma rec_max_foldl_init_le (l : List ITimelineRecord) (a : ℚ) :
    a ≤ l.foldl (fun x y => max x y.endTime) a := by
  induction l generalizing a with
  | nil => exact le_refl a
  | cons b l ih => exact le_trans (le_max_left a b.endTime) (ih (max a b.endTime))

lemma rec_max_foldl_mem_le (l : List ITimelineRecord) (a : ℚ) (r : ITimelineRecord)
    (h : r ∈ l) : r.endTime ≤ l.foldl (fun x y => max x y.endTime) a := by
  induction l generalizing a with
  | nil => cases h
  | cons b l ih =>
      rcases List.mem_cons.mp h with rfl | hmem
      · exact le_trans (le_max_right a r.endTime)
          (rec_max_foldl_init_le l (max a r.endTime))
      · exact ih (max a b.endTime) hmem

lemma allStartOf_le (recs : List ITimelineRecord) (r : ITimelineRecord) (h : r ∈ recs) :
    allStartOf recs ≤ r.startTime := by
  cases recs with
  | nil => cases h
  | cons r0 rest =>
      show rest.foldl (fun a x => min a x.startTime) r0.startTime ≤ r.startTime
      rcases List.mem_cons.mp h with heq | hmem
      · rw [heq]
        exact rec_min_foldl_le_init rest r0.startTime
      · exact rec_min_foldl_le_mem rest r0.startTime r hmem

lemma le_allEndOf (recs : List ITimelineRecord) (r : ITimelineRecord) (h : r ∈ recs) :
    r.endTime ≤ allEndOf recs := by
  cases recs with
  | nil => cases h
  | cons r0 rest =>
      show r.endTime ≤ rest.foldl (fun a x => max a x.endTime) r0.endTime
      rcases List.mem_cons.mp h with heq | hmem
      · rw [heq]
        exact rec_max_foldl_init_le rest r0.endTime
      · exact rec_max_foldl_mem_le rest r0.endTime r hmem

lemma workDurationOf_eq (recs : List ITimelineRecord) :
    workDurationOf recs = ((recs.map (fun r => r.endTime - r.startTime)).sum) / 1000 := by
  unfold workDurationOf
  induction recs with
  | nil => simp
  | cons r rest ih =>
      simp only [List.map_cons, List.sum_cons]
      rw [ih, add_div, opDurationOf]

/-- C5: for every non-empty record set with `startTime ≤ endTime` for each
record, the average parallelism `workDuration / (allDuration in the same
units)` is `≥ 0` and `≤` the realized maximum parallelism computed by the
`busyCpus` reconstruction (the degenerate `allDuration = 0` ratio is read as
`0` under the total division of `ℚ`). -/
theorem avg_parallelism_bounds (recs : List ITimelineRecord) (hne : recs ≠ [])
    (hse : ∀ r ∈ recs, r.startTime ≤ r.endTime) :
    0 ≤ avgParallelismOf recs ∧
    avgParallelismOf recs ≤ ((runCpus recs).length : ℚ) := by
  have hbounds : ∀ r ∈ recs, allStartOf recs ≤ r.startTime ∧ r.endTime ≤ allEndOf recs :=
    fun r hr => ⟨allStartOf_le recs r hr, le_allEndOf recs r hr⟩
  obtain ⟨hfin, hsum⟩ := cpu_fold_bound (allEndOf recs) (allStartOf recs) recs []
    hbounds (by simp)
  have hwork : (recs.map (fun r => r.endTime - r.startTime)).sum ≤
      busySumFrom (allStartOf recs) (runCpus recs) := by
    simpa [busySumFrom, runCpus] using hsum
  have hcard : busySumFrom (allStartOf recs) (runCpus recs) ≤
      ((runCpus recs).length : ℚ) * (allEndOf recs - allStartOf recs) := by
    have hmem : ∀ x ∈ (runCpus recs).map (fun b => b - allStartOf recs),
        x ≤ allEndOf recs - allStartOf recs := by
      intro x hx
      obtain ⟨b, hb, rfl⟩ := List.mem_map.mp hx
      have : b ≤ allEndOf recs := hfin b (by simpa [runCpus] using hb)
      linarith
    have hs := List.sum_le_card_nsmul _ (allEndOf recs - allStartOf recs) hmem
    rw [nsmul_eq_mul] at hs
    simpa [busySumFrom] using hs
  have hDnonneg : (0:ℚ) ≤ allEndOf recs - allStartOf recs := by
    obtain ⟨r0, rest, rfl⟩ := List.exists_cons_of_ne_nil hne
    have h1 := (hbounds r0 (List.mem_cons_self r0 rest)).1
    have h2 := (hbounds r0 (List.mem_cons_self r0 rest)).2
    have h3 := hse r0 (List.mem_cons_self r0 rest)
    linarith
  have hW : (0:ℚ) ≤ workDurationOf recs := by
    unfold workDurationOf
    apply List.sum_nonneg
    intro x hx
    obtain ⟨r, hr, rfl⟩ := List.mem_map.mp hx
    have := hse r hr
    unfold opDurationOf
    exact div_nonneg (by linarith) (by norm_num)
  constructor
  · exact div_nonneg hW (div_nonneg hDnonneg (by norm_num))
  · rcases eq_or_lt_of_le hDnonneg with heq | hlt
    · unfold avgParallelismOf
      rw [← heq]
      simp
    · unfold avgParallelismOf
      rw [div_le_iff₀ (by linarith : (0:ℚ) < (allEndOf recs - allStartOf recs) / 1000)]
      rw [workDurationOf_eq]
      have hchain : (recs.map (fun r => r.endTime - r.startTime)).sum ≤
          ((runCpus recs).length : ℚ) * (allEndOf recs - allStartOf recs) :=
        le_trans hwork hcard
      calc ((recs.map (fun r => r.endTime - r.startTime)).sum) / 1000
          ≤ (((runCpus recs).length : ℚ) * (allEndOf recs - allStartOf recs)) / 1000 := by
            linarith
          _ = ((runCpus recs).length : ℚ) * ((allEndOf recs - allStartOf recs) / 1000) := by
            ring

/-- The records used in the C5 witness: two overlapping operations. -/
def c5recs : List ITimelineRecord :=
  [{ startTime := 0, endTime := 1000, durationString := "1.0", name := "a", status := .Success },
   { startTime := 500, endTime := 1500, durationString := "1.0", name := "b", status := .Success }]

/-- Witness for C5 at two concrete overlapping records. -/
theorem avg_parallelism_bounds_witness :
    0 ≤ avgParallelismOf c5recs ∧
    avgParallelismOf c5recs ≤ ((runCpus c5recs).length : ℚ) :=
  avg_parallelism_bounds c5recs (by decide) (by decide)

/-! ### The parallelism reconstruction (C1) -/

/-- The counting invariant of the busy-CPU reconstruction: after processing
`done`, for every instant `t` at or after every processed start time, the
number of busy entries still beyond `t` equals the number of processed records
ending after `t`. -/
def CpuInv (done : List ITimelineRecord) (busy : List ℚ) : Prop :=
  ∀ t : ℚ, (∀ r ∈ done, r.startTime ≤ t) →
    busy.countP (fun b => decide (t < b)) = done.countP (fun r => decide (t < r.endTime))

lemma cpuInv_nil : CpuInv [] [] := by
  intro t _
  rfl

lemma cpuInv_step (done : List ITimelineRecord) (busy : List ℚ) (r : ITimelineRecord)
    (hInv : CpuInv done busy) : CpuInv (done ++ [r]) (stepCpu busy r) := by
  intro t ht
  have htdone : ∀ r' ∈ done, r'.startTime ≤ t :=
    fun r' h' => ht r' (List.mem_append_left [r] h')
  have htr : r.startTime ≤ t := ht r (List.mem_append_right done (List.mem_singleton_self r))
  unfold stepCpu assignCpu
  by_cases hcase : getOpenCPU busy r.startTime = busy.length
  · rw [if_pos hcase, List.countP_append, List.countP_append, hInv t htdone]
    simp [List.countP_cons]
  · rw [if_neg hcase]
    have hlt : getOpenCPU busy r.startTime < busy.length :=
      lt_of_le_of_ne (getOpenCPU_le busy r.startTime) hcase
    have hget := getOpenCPU_get busy r.startTime hlt
    have hfalse : (fun b => decide (t < b)) (busy.get ⟨getOpenCPU busy r.startTime, hlt⟩) =
        false := by
      simp only [decide_eq_false_iff_not, not_lt]
      exact le_trans hget htr
    rw [countP_set_of_false _ busy _ r.endTime hlt hfalse, hInv t htdone,
      List.countP_append]
    simp [List.countP_cons]

lemma cpuInv_fold (todo : List ITimelineRecord) :
    ∀ (done : List ITimelineRecord) (busy : List ℚ),
      CpuInv done busy → CpuInv (done ++ todo) (todo.foldl stepCpu busy) := by
  induction todo with
  | nil => intro done busy h; simpa using h
  | cons r rest ih =>
      intro done busy h
      have h2 := ih (done ++ [r]) (stepCpu busy r) (cpuInv_step done busy r h)
      rw [List.append_assoc, List.singleton_append] at h2
      rw [List.foldl_cons]
      exact h2

lemma cpu_fold_upper (M : ℕ) :
    ∀ (todo done : List ITimelineRecord) (busy : List ℚ),
      List.Pairwise (fun a b => a.startTime ≤ b.startTime) (done ++ todo) →
      (∀ r ∈ done ++ todo, r.startTime < r.endTime) →
      CpuInv done busy →
      (∀ t : ℚ, overlapAt (done ++ todo) t ≤ M) →
      busy.length ≤ M →
      (todo.foldl stepCpu busy).length ≤ M := by
  intro todo
  induction todo with
  | nil => intro done busy _ _ _ _ hlen; simpa using hlen
  | cons r rest ih =>
      intro done busy hsorted hstrict hInv hM hlen
      rw [List.foldl_cons]
      have hfix : (done ++ [r]) ++ rest = done ++ r :: rest := by
        rw [List.append_assoc, List.singleton_append]
      refine ih (done ++ [r]) (stepCpu busy r) (by rw [hfix]; exact hsorted)
        (by rw [hfix]; exact hstrict) (cpuInv_step done busy r hInv)
        (by rw [hfix]; exact hM) ?_
      rw [stepCpu_length]
      by_cases hcase : getOpenCPU busy r.startTime = busy.length
      · rw [if_pos hcase]
        have hall : ∀ b ∈ busy, r.startTime < b :=
          (getOpenCPU_eq_length_iff busy r.startTime).mp hcase
        have hfull : busy.countP (fun b => decide (r.startTime < b)) = busy.length :=
          List.countP_eq_length.mpr (fun b hb => by
            simpa using hall b hb)
        have hdonestart : ∀ r' ∈ done, r'.startTime ≤ r.startTime := by
          intro r' hr'
          have := (List.pairwise_append.mp hsorted).2.2 r' hr' r (List.mem_cons_self r rest)
          exact this
        have hInvAt := hInv r.startTime hdonestart
        -- busy.length = number of processed records still running at r.startTime
        have hlen_eq : busy.length =
            done.countP (fun r' => decide (r.startTime < r'.endTime)) := by
          rw [← hInvAt, hfull]
        -- relate to overlapAt of the whole list at r.startTime
        have hcongr : done.countP (fun r' => decide (r.startTime < r'.endTime)) =
            done.countP (fun r' =>
              decide (r'.startTime ≤ r.startTime) && decide (r.startTime < r'.endTime)) := by
          apply List.countP_congr
          intro r' hr'
          simp [hdonestart r' hr']
        have hcons : overlapAt (done ++ r :: rest) r.startTime =
            done.countP (fun r' =>
              decide (r'.startTime ≤ r.startTime) && decide (r.startTime < r'.endTime)) +
            (r :: rest).countP (fun r' =>
              decide (r'.startTime ≤ r.startTime) && decide (r.startTime < r'.endTime)) := by
          unfold overlapAt
          rw [List.countP_append]
        have hge1 : 1 ≤ (r :: rest).countP (fun r' =>
            decide (r'.startTime ≤ r.startTime) && decide (r.startTime < r'.endTime)) := by
          rw [List.countP_cons]
          have hrP : (decide (r.startTime ≤ r.startTime) &&
              decide (r.startTime < r.endTime)) = true := by
            simp [hstrict r (List.mem_append_right done (List.mem_cons_self r rest))]
          rw [hrP]
          simp
        have hkey : busy.length =
            done.countP (fun r' =>
              decide (r'.startTime ≤ r.startTime) && decide (r.startTime < r'.endTime)) := by
          rw [hlen_eq, hcongr]
        have hM' := hM r.startTime
        rw [hcons] at hM'
        omega
      · rw [if_neg hcase]
        exact hlen

lemma overlapAt_start_le_maxOverlap (recs : List ITimelineRecord) (r : ITimelineRecord)
    (h : r ∈ recs) : overlapAt recs r.startTime ≤ maxOverlap recs := by
  unfold maxOverlap
  exact le_foldl_max _ _ _ (List.mem_map_of_mem _ h)

lemma overlapAt_le_maxOverlap (recs : List ITimelineRecord) (t : ℚ) :
    overlapAt recs t ≤ maxOverlap recs := by
  by_cases hS : recs.filter (fun r => decide (r.startTime ≤ t) && decide (t < r.endTime)) = []
  · have h0 : overlapAt recs t = 0 := by
      unfold overlapAt
      rw [List.countP_eq_length_filter, hS]
      rfl
    rw [h0]
    exact Nat.zero_le _
  · obtain ⟨rstar, hrstar⟩ : ∃ m, m ∈
        (recs.filter
          (fun r => decide (r.startTime ≤ t) && decide (t < r.endTime))).argmax
          (fun r => r.startTime) := by
      cases harg : (recs.filter
          (fun r => decide (r.startTime ≤ t) && decide (t < r.endTime))).argmax
          (fun r => r.startTime) with
      | none => exact absurd (List.argmax_eq_none.mp harg) hS
      | some m => exact ⟨m, by simp [harg]⟩
    have hmemS := List.argmax_mem hrstar
    have hr1 : rstar ∈ recs := (List.mem_filter.mp hmemS).1
    have hr2 := (List.mem_filter.mp hmemS).2
    rw [Bool.and_eq_true, decide_eq_true_eq, decide_eq_true_eq] at hr2
    have hmono : overlapAt recs t ≤ overlapAt recs rstar.startTime := by
      unfold overlapAt
      apply List.countP_mono_left
      intro r' hr' hP
      rw [Bool.and_eq_true, decide_eq_true_eq, decide_eq_true_eq] at hP
      have hr'S : r' ∈ recs.filter
          (fun r => decide (r.startTime ≤ t) && decide (t < r.endTime)) :=
        List.mem_filter.mpr ⟨hr', by simp [hP.1, hP.2]⟩
      have hle : r'.startTime ≤ rstar.startTime := List.le_of_mem_argmax hr'S hrstar
      have hlt : rstar.startTime < r'.endTime := lt_of_le_of_lt hr2.1 hP.2
      simp [hle, hlt]
    exact le_trans hmono (overlapAt_start_le_maxOverlap recs rstar hr1)

lemma sorted_dropWhile_gt (t : ℚ) (l : List ITimelineRecord) :
    List.Pairwise (fun a b => a.startTime ≤ b.startTime) l →
    ∀ r ∈ l.dropWhile (fun r => decide (r.startTime ≤ t)), t < r.startTime := by
  induction l with
  | nil => intro _ r hr; simp at hr
  | cons a l ih =>
      intro hp r hr
      by_cases ha : a.startTime ≤ t
      · rw [List.dropWhile_cons, if_pos (by simpa using ha)] at hr
        exact ih (List.pairwise_cons.mp hp).2 r hr
      · rw [List.dropWhile_cons, if_neg (by simpa using ha)] at hr
        rcases List.mem_cons.mp hr with heq | hmem
        · rw [heq]; exact not_le.mp ha
        · exact lt_of_lt_of_le (not_le.mp ha) ((List.pairwise_cons.mp hp).1 r hmem)

lemma overlapAt_le_runCpus (recs : List ITimelineRecord)
    (hsorted : List.Pairwise (fun a b => a.startTime ≤ b.startTime) recs) (t : ℚ) :
    overlapAt recs t ≤ (runCpus recs).length := by
  have hsplit : recs.takeWhile (fun r => decide (r.startTime ≤ t)) ++
      recs.dropWhile (fun r => decide (r.startTime ≤ t)) = recs :=
    List.takeWhile_append_dropWhile (fun r => decide (r.startTime ≤ t)) recs
  have hpre : ∀ r ∈ recs.takeWhile (fun r => decide (r.startTime ≤ t)),
      r.startTime ≤ t := by
    intro r hr
    simpa using List.mem_takeWhile_imp hr
  have hpost : ∀ r ∈ recs.dropWhile (fun r => decide (r.startTime ≤ t)),
      t < r.startTime := sorted_dropWhile_gt t recs hsorted
  have hInvPre : CpuInv (recs.takeWhile (fun r => decide (r.startTime ≤ t)))
      (runCpus (recs.takeWhile (fun r => decide (r.startTime ≤ t)))) := by
    have := cpuInv_fold (recs.takeWhile (fun r => decide (r.startTime ≤ t))) [] [] cpuInv_nil
    simpa [runCpus] using this
  have hcount := hInvPre t hpre
  have hov : overlapAt recs t =
      (recs.takeWhile (fun r => decide (r.startTime ≤ t))).countP
        (fun r => decide (t < r.endTime)) := by
    unfold overlapAt
    conv_lhs => rw [← hsplit]
    rw [List.countP_append]
    have hpost0 : (recs.dropWhile (fun r => decide (r.startTime ≤ t))).countP
        (fun r => decide (r.startTime ≤ t) && decide (t < r.endTime)) = 0 := by
      rw [List.countP_eq_zero]
      intro r hr
      simp only [Bool.and_eq_true, decide_eq_true_eq, not_and]
      intro hle
      exact absurd hle (not_le.mpr (hpost r hr))
    rw [hpost0, Nat.add_zero]
    apply List.countP_congr
    intro r hr
    simp [hpre r hr]
  rw [hov, ← hcount]
  calc (runCpus (recs.takeWhile (fun r => decide (r.startTime ≤ t)))).countP
        (fun b => decide (t < b))
      ≤ (runCpus (recs.takeWhile (fun r => decide (r.startTime ≤ t)))).length :=
        List.countP_le_length _
    _ ≤ (runCpus recs).length := by
        conv_rhs => rw [← hsplit]
        unfold runCpus
        rw [List.foldl_append]
        exact foldl_stepCpu_length_le _ _

/-- C1 (amended): for every start-time-sorted record list in which every
record has `startTime < endTime` (strictly positive duration), the busy-CPU
reconstruction terminates with `busyCpus.length` equal to the maximum number
of simultaneously-overlapping `[startTime, endTime)` intervals (`maxOverlap`,
the maximum of the overlap count over all start points, which bounds the
overlap count at every instant `t`); in particular it yields 1 for pairwise
non-overlapping intervals and N for N mutually-overlapping intervals.  The
strictness hypothesis is necessary: a zero-length record occupies a CPU while
overlapping nothing. -/
theorem parallelism_reconstruction (recs : List ITimelineRecord)
    (hsorted : List.Pairwise (fun a b => a.startTime ≤ b.startTime) recs)
    (hstrict : ∀ r ∈ recs, r.startTime < r.endTime) :
    (runCpus recs).length = maxOverlap recs ∧
    ∀ t : ℚ, overlapAt recs t ≤ maxOverlap recs := by
  refine ⟨le_antisymm ?_ ?_, fun t => overlapAt_le_maxOverlap recs t⟩
  · have := cpu_fold_upper (maxOverlap recs) recs [] [] (by simpa using hsorted)
      (by simpa using hstrict) cpuInv_nil
      (fun t => by simpa using overlapAt_le_maxOverlap recs t)
      (Nat.zero_le _)
    simpa [runCpus] using this
  · unfold maxOverlap
    apply foldl_max_le _ _ _ (Nat.zero_le _)
    intro x hx
    obtain ⟨r, hr, rfl⟩ := List.mem_map.mp hx
    exact overlapAt_le_runCpus recs hsorted r.startTime

/-- First record of the C1 counterexample: the interval `[0, 2)`. -/
def c1exA : ITimelineRecord :=
  { startTime := 0, endTime := 2, durationString := "0.0", name := "a", status := .Success }

/-- Second record of the C1 counterexample: the zero-length interval `[1, 1)`. -/
def c1exB : ITimelineRecord :=
  { startTime := 1, endTime := 1, durationString := "0.0", name := "b", status := .Success }

/-- Counterexample for C1 as stated: the records are sorted by start time and
satisfy `startTime ≤ endTime`, yet the reconstruction produces 2 CPUs while
the maximum number of simultaneously-overlapping `[startTime, endTime)`
intervals is 1 (the zero-length record `[1, 1)` contains no instant but still
claims a CPU, because `busyCpus[0] = 2 > 1`). -/
theorem parallelism_reconstruction_counterexample :
    List.Pairwise (fun a b => a.startTime ≤ b.startTime) [c1exA, c1exB] ∧
    c1exA.startTime ≤ c1exA.endTime ∧ c1exB.startTime ≤ c1exB.endTime ∧
    (runCpus [c1exA, c1exB]).length = 2 ∧ maxOverlap [c1exA, c1exB] = 1 ∧
    (runCpus [c1exA, c1exB]).length ≠ maxOverlap [c1exA, c1exB] := by
  refine ⟨by decide, by decide, by decide, by decide, by decide, by decide⟩

/-- Records for the C1 witness: three mutually-overlapping intervals. -/
def c1w : List ITimelineRecord :=
  [{ startTime := 0, endTime := 10, durationString := "0.0", name := "a", status := .Success },
   { startTime := 1, endTime := 9, durationString := "0.0", name := "b", status := .Success },
   { startTime := 2, endTime := 8, durationString := "0.0", name := "c", status := .Success }]

/-- Witness for C1 (amended) at three mutually-overlapping records:
3 CPUs are used and the maximum overlap is 3. -/
theorem parallelism_reconstruction_witness :
    (runCpus c1w).length = maxOverlap c1w :=
  (parallelism_reconstruction c1w (by decide) (by decide)).1

end RushTimeline
